import Mathlib

/-!
Verification of the ConsensusCore2 scoring core against its specification.

The development shallowly embeds the two source files
`src/EvaluatorImpl.cpp` and `src/models/S_P1C1v2_Model.cpp`:

* pure table-driven functions (`EncodeRead`, `Populate`, the transition
  softmax of the `S_P1C1v2_Model` constructor, `UndoCounterWeights`) are
  translated directly into Lean functions over `ℝ`, `Nat`, `Char`;
* fallible C++ code (functions that `throw`) returns `Except CCError`;
* the Recursor primitives (`ExtendAlpha`, `LinkAlphaBeta`, `ExtendBeta`,
  `FillAlpha`, `FillAlphaBeta`) and the Template overlay live in headers
  that are not part of the two source files, so they are modelled from the
  specification as explicit parameters (`RecursorOps`) and a small overlay
  state (`Tpl`); the control flow of `EvaluatorImpl` that uses them is
  translated literally.
-/

/-- The error kinds surfaced by the core (specification section 7).
`badAlloc` stands for an allocation failure (`std::bad_alloc`) that any
matrix allocation or recursor callee may raise. -/
inductive CCError where
  | invalidBase
  | invalidPulseWidth
  | readEncodingError
  | chemistryNotFound
  | alphaBetaMismatch
  | templateOverlap
  | badAlloc
  deriving DecidableEq, Repr

/-- Modelled from the spec: `detail::TranslationTable` lives in a header
that is not under `src/`; per the spec, nucleotides {A,C,G,T} are encoded
as 0..3 and any other character is invalid (here: a value above 3). -/
def translationTable : Char → Nat
  | 'A' => 0
  | 'C' => 1
  | 'G' => 2
  | 'T' => 3
  | _ => 255

/-- Function `S_P1C1v2_Recursor::EncodeRead`: per position, check the pulse width
(`< 1` throws `InvalidPulseWidth`), compute `pw = min(2, PulseWidth-1)`,
translate the base (`> 3` throws `InvalidBase`), emit
`em = (pw << 2) | bp`, and check `em > 11` (`ReadEncodingError`).
A read is a list of (character, pulse width) pairs. -/
def encodeRead (read : List (Char × Nat)) : Except CCError (List Nat) :=
  match read with
  | [] => .ok []
  | (ch, pwIn) :: rest =>
    if pwIn < 1 then .error .invalidPulseWidth
    else
      let pw := min 2 (pwIn - 1)
      let bp := translationTable ch
      if bp > 3 then .error .invalidBase
      else
        let em := (pw <<< 2) ||| bp
        if em > 11 then .error .readEncodingError
        else
          match encodeRead rest with
          | .error e => .error e
          | .ok r => .ok (em :: r)

/-- Constant `kCounterWeight = 20.0` from `S_P1C1v2_Model.cpp`. -/
def kCounterWeight : ℝ := 20.0

/-- Function `S_P1C1v2_Recursor::UndoCounterWeights`:
`-std::log(kCounterWeight) * nEmissions`. -/
noncomputable def undoCounterWeights (nEmissions : Nat) : ℝ :=
  -Real.log kCounterWeight * nEmissions

/-- Table `snrRanges` from `S_P1C1v2_Model.cpp`: per-base SNR clamping ranges
for A, C, G, T. -/
def snrRanges : Nat → ℝ × ℝ
  | 0 => (4.001438, 9.300400)
  | 1 => (7.132999, 18.840239)
  | 2 => (4.017619, 9.839173)
  | 3 => (5.553696, 15.040482)
  | _ => (0, 0)

/-- Function `clip(val, range) = max(range[0], min(val, range[1]))`. -/
def clip (val : ℝ) (range : ℝ × ℝ) : ℝ :=
  max range.1 (min val range.2)

/-- Table `transProbs` from `S_P1C1v2_Model.cpp`: per-context cubic regression
coefficients (in SNR) for the branch, stick and deletion logits. -/
def transProbsTable : List (List (List ℝ)) :=
  [   -- AA
   [[-10.2090406, 3.32117257, -0.520117212, 0.0249921413],
    [8.9793309, -5.3961519, 0.763613361, -0.0364406433],
    [7.97224482, -3.91644241, 0.485967707, -0.0210642023]],
   -- AC
   [[-8.67385002, 1.79692678, -0.189152589, 0.00593875207],
    [-2.06471994, -0.248833169, 0.0239433129, -0.00081901914],
    [1.9844226, -0.834246008, 0.0238906298, 0.000299399008]],
   -- AG
   [[-5.57888183, 0.8609919, -0.0601847875, -0.00209638118],
    [-0.0651352822, -0.37813552, -0.116036072, 0.0118044463],
    [10.3924646, -4.87649024, 0.583074371, -0.0230668231]],
   -- AT
   [[-6.05918189, 1.12045586, -0.175515022, 0.0081588429],
    [-7.72954717, 1.74329164, -0.228908375, 0.00956968799],
    [0.739498015, -0.820985799, 0.034285628, 0.000308222633]],
   -- CA
   [[6.71916863, -4.10669176, 0.61911044, -0.0312872449],
    [-10.7393976, 3.94632964, -0.664301449, 0.0363137581],
    [0.534509761, -0.614208207, -0.0230577035, 0.00504754227]],
   -- CC
   [[-11.8487027, 2.18336459, -0.165744338, 0.00381936993],
    [-5.40511615, 0.582166777, -0.0352022429, 0.000649948647],
    [3.62707756, -1.60860162, 0.127123969, -0.00333194156]],
   -- CG
   [[-5.33620523, 1.30599458, -0.227619416, 0.0129127127],
    [-8.16537748, 2.82193426, -0.53094601, 0.0319445398],
    [13.0580439, -6.8013044, 0.926568827, -0.0424609205]],
   -- CT
   [[12.613656, -5.19052298, 0.561451908, -0.0206707933],
    [-9.73651127, 2.15521846, -0.225290947, 0.00767974576],
    [7.16886431, -2.96320727, 0.2726381, -0.00837654404]],
   -- GA
   [[-3.6938331, 0.483533725, -0.0450473465, 0.000160356592],
    [6.68949621, -4.66399411, 0.677757326, -0.0318630437],
    [1.33410944, -0.988217134, -0.00422287463, 0.00562702615]],
   -- GC
   [[2.66843035, -1.62797424, 0.147491681, -0.00444976878],
    [1.14199306, -0.843025302, 0.0604509646, -0.00133222978],
    [5.92824303, -2.33995279, 0.175825931, -0.00449046566]],
   -- GG
   [[-9.53335176, 2.51765873, -0.318510141, 0.0117320354],
    [-0.524486685, -0.436816275, -0.0926096178, 0.0112705438],
    [8.88135834, -4.79762534, 0.664134538, -0.0311007622]],
   -- GT
   [[3.35914891, -1.38173016, 0.0781044221, -0.000763136872],
    [10.8476498, -4.75169784, 0.525334182, -0.0193477301],
    [15.5403876, -5.8956994, 0.604296436, -0.0209965825]],
   -- TA
   [[5.16029404, -3.68434804, 0.621640606, -0.0350676726],
    [11.8825308, -7.04640014, 1.07909276, -0.0537996376],
    [-9.20746548, 4.71271573, -0.951489582, 0.0565839306]],
   -- TC
   [[2.73609906, -1.3992629, 0.120116348, -0.00349409007],
    [-4.54672948, 0.344140535, -0.0129698225, -0.000227430524],
    [0.840535522, -1.10879024, 0.0800657995, -0.00206209905]],
   -- TG
   [[-6.45925912, 1.63128009, -0.226062028, 0.0099607621],
    [-8.86160161, 3.12245384, -0.583442174, 0.033990528],
    [3.46514973, -1.91203442, 0.12119972, 0.00103341906]],
   -- TT
   [[2.70097834, -1.96301816, 0.246186023, -0.00988186677],
    [1.80568256, -1.56446979, 0.176114086, -0.00665610868],
    [1.91982573, -1.50191002, 0.153230363, -0.00550115233]]]

/-- Coefficient lookup: `transProbs[ctx][j][k]` (0 outside the table). -/
def transProbs (ctx j k : Nat) : ℝ :=
  ((transProbsTable.getD ctx []).getD j []).getD k 0

/-- The clamped SNR used by the `S_P1C1v2_Model` constructor for context
`ctx`: `clip(snr[bp], snrRanges[bp])` with `bp = ctx & 3`. -/
noncomputable def clampedSnr (snr : Nat → ℝ) (ctx : Nat) : ℝ :=
  clip (snr (ctx &&& 3)) (snrRanges (ctx &&& 3))

/-- The exponentiated cubic logit `exp(xb)` of the `S_P1C1v2_Model`
constructor, with `xb = c0 + snr1*c1 + snr2*c2 + snr3*c3`,
`snr2 = snr1*snr1`, `snr3 = snr2*snr1`, and `c` the coefficient row
`transProbs[ctx][k]`. -/
noncomputable def transLogitExp (ctx k : Nat) (snr1 : ℝ) : ℝ :=
  Real.exp (transProbs ctx k 0 + snr1 * transProbs ctx k 1 +
    (snr1 * snr1) * transProbs ctx k 2 + (snr1 * snr1 * snr1) * transProbs ctx k 3)

/-- The normalizing sum of the constructor: `1` plus the three
exponentiated logits. -/
noncomputable def ctxTransSum (snr : Nat → ℝ) (ctx : Nat) : ℝ :=
  1.0 + transLogitExp ctx 0 (clampedSnr snr ctx) +
    transLogitExp ctx 1 (clampedSnr snr ctx) +
    transLogitExp ctx 2 (clampedSnr snr ctx)

/-- The transition-probability assembly performed by the `S_P1C1v2_Model`
constructor: `ctxTrans snr ctx j` is the cached `ctxTrans_[ctx][j]` for
`j ∈ {0 = match, 1 = branch, 2 = stick, 3 = deletion}`: the vector
`(1, e1, e2, e3)` divided by its sum. -/
noncomputable def ctxTrans (snr : Nat → ℝ) (ctx : Nat) (j : Nat) : ℝ :=
  (if j = 0 then 1.0 else transLogitExp ctx (j - 1) (clampedSnr snr ctx)) /
    ctxTransSum snr ctx

/-- One position of a populated template: the base character, its 0..3
encoding, and the four transition probabilities out of the position. -/
structure TemplatePosition where
  base : Char
  idx : Nat
  matchPr : ℝ
  branchPr : ℝ
  stickPr : ℝ
  deletionPr : ℝ

/-- The loop body of `S_P1C1v2_Model::Populate`: `populateGo params c rest`
produces the positions for the template suffix starting at the (already
validated) character `c` followed by `rest`.  For each interior position
the stored probabilities are `params row j` with
`row = (prev << 2) | curr`; the last position stores `(1, 0, 0, 0)`. -/
def populateGo (params : Nat → Nat → ℝ) : Char → List Char → Except CCError (List TemplatePosition)
  | c, [] => .ok [⟨c, translationTable c, 1.0, 0.0, 0.0, 0.0⟩]
  | c, d :: rest =>
    let curr := translationTable d
    if curr > 3 then .error .invalidBase
    else
      let row := (translationTable c <<< 2) ||| curr
      match populateGo params d rest with
      | .error e => .error e
      | .ok ps =>
        .ok (⟨c, translationTable c, params row 0, params row 1, params row 2, params row 3⟩ :: ps)

/-- Function `S_P1C1v2_Model::Populate`: empty template gives the empty vector;
otherwise validate the first character and run the loop.  The probability
table `params` is the model's cached `ctxTrans_` (row-indexed). -/
def populate (params : Nat → Nat → ℝ) (tpl : List Char) : Except CCError (List TemplatePosition) :=
  match tpl with
  | [] => .ok []
  | c :: rest =>
    if translationTable c > 3 then .error .invalidBase
    else populateGo params c rest

/-- Default `TemplatePosition` used only as the `List.getD` fallback in
theorem statements. -/
def dfltPos : TemplatePosition := ⟨' ', 0, 0, 0, 0, 0⟩

/-- The `ctxTrans_` row index of the context made of positions `i` and
`i + 1` of the template string: `(prev << 2) | curr`. -/
def rowOf (cs : List Char) (i : Nat) : Nat :=
  (translationTable (cs.getD i ' ') <<< 2) ||| translationTable (cs.getD (i + 1) ' ')

/-- Default (character, pulse width) pair used only as the `List.getD`
fallback in theorem statements. -/
def dfltPair : Char × Nat := (' ', 0)

/-- The encoded outcome of one read position:
`(min(2, pw - 1) << 2) | base`. -/
def outcomeOf (p : Char × Nat) : Nat :=
  (min 2 (p.2 - 1) <<< 2) ||| translationTable p.1

/-- Shallow model of `ScaledMatrix`: entries, per-column log scales, and
dimensions.  `GetLogProdScales a b` sums the column log-scales over
`[a, b)`; the no-argument C++ overload is `GetLogProdScalesAll`. -/
structure ScaledMatrix where
  rows : Nat
  cols : Nat
  entry : Nat → Nat → ℝ
  logScale : Nat → ℝ

noncomputable def ScaledMatrix.GetLogProdScales (m : ScaledMatrix) (a b : Nat) : ℝ :=
  ∑ j ∈ Finset.Ico a b, m.logScale j

noncomputable def ScaledMatrix.GetLogProdScalesAll (m : ScaledMatrix) : ℝ :=
  m.GetLogProdScales 0 m.cols

/-- Mutation type, as in the `Mutation` record (spec section 6). -/
inductive MutationType where
  | substitution
  | insertion
  | deletion
  deriving DecidableEq, Repr

/-- Modelled from the spec: the `Mutation` record
`{type, start, end, base?}` (the class itself is in a header not under
`src/`).  `end_` is the C++ `End()`. -/
structure Mutation where
  mtype : MutationType
  start : Nat
  end_ : Nat
  base : Option Char
  deriving DecidableEq, Repr

/-- Function `Mutation::LengthDiff()`: +1 for insertion, -1 for deletion, 0 for
substitution. -/
def Mutation.lengthDiff (m : Mutation) : Int :=
  match m.mtype with
  | .insertion => 1
  | .deletion => -1
  | .substitution => 0

/-- Modelled from the spec: the Template's virtual-mutation overlay
(section 4.4; the Template class is in a header not under `src/`).  Only
what `EvaluatorImpl` observes is modelled: the length and whether a
virtual mutation is pending.  `Mutate` installs the overlay, `Reset`
restores the pre-mutation view. -/
structure Tpl where
  len : Nat
  overlay : Option Mutation
  deriving DecidableEq, Repr

def Tpl.mutate (t : Tpl) (m : Mutation) : Tpl := { t with overlay := some m }

def Tpl.reset (t : Tpl) : Tpl := { t with overlay := none }

/-- The visible template length: the overlay changes it by `lengthDiff`. -/
def Tpl.length (t : Tpl) : Nat :=
  match t.overlay with
  | none => t.len
  | some m => (t.len + m.lengthDiff).toNat

/-- The state owned by an `EvaluatorImpl`: α, β, the extend buffer, the
template, the read length, and the (mean, variance) pair the Template
computes for `NormalParameters` (its computation lives outside `src/`). -/
structure EvaluatorState where
  readLength : Nat
  alpha : ScaledMatrix
  beta : ScaledMatrix
  extendBuffer : ScaledMatrix
  tpl : Tpl
  normalMean : ℝ
  normalVar : ℝ

/-- Function `EvaluatorImpl::LL()`:
`log β(0,0) + β.GetLogProdScales() + tpl->UndoCounterWeights(read.Length())`. -/
noncomputable def LL (st : EvaluatorState) : ℝ :=
  Real.log (st.beta.entry 0 0) + st.beta.GetLogProdScalesAll +
    undoCounterWeights st.readLength

/-- Function `EvaluatorImpl::NormalParameters()`: delegates to the Template. -/
def normalParameters (st : EvaluatorState) : ℝ × ℝ :=
  (st.normalMean, st.normalVar)

/-- Modelled from the spec: the Recursor primitives (section 4.3); the
Recursor class is in a header not under `src/`.  Each primitive reads the
given matrices and yields an extend-buffer content or a link score; as
C++ functions they may throw, modelled by `Except`.  `fillAlpha` is the
from-scratch `FillAlpha(Null, alphaP)` against the virtual template,
preceded by the allocation of the fresh matrix `alphaP` (which itself can
throw `std::bad_alloc`). -/
structure RecursorOps where
  extendAlpha : ScaledMatrix → Nat → Nat → Except CCError ScaledMatrix
  linkAlphaBeta : ScaledMatrix → Nat → ScaledMatrix → Nat → Int → Except CCError ℝ
  extendBeta : ScaledMatrix → Nat → Int → Except CCError ScaledMatrix
  fillAlpha : Tpl → Except CCError ScaledMatrix

/-- The extend start column of the interior branch of
`EvaluatorImpl::LL(mut)`: `mut.Start() - 1` for a deletion, `mut.Start()`
otherwise. -/
def extendStartColOf (mu : Mutation) : Nat :=
  match mu.mtype with
  | .deletion => mu.start - 1
  | _ => mu.start

/-- The body of `EvaluatorImpl::LL(mut)` between `Mutate` and `Reset`,
acting on the already-mutated state `stM`: the four-way case split on
`atBegin = mut.Start() < 3` and `atEnd = mut.End() + 3 > β.Columns()`
(the β here is the matrix filled before the call, i.e. `stM.beta`).
Returns the raw score and the new extend-buffer content. -/
noncomputable def LLmutScore (ops : RecursorOps) (stM : EvaluatorState) (mu : Mutation) :
    Except CCError (ℝ × ScaledMatrix) :=
  let betaLinkCol := 1 + mu.end_
  let absoluteLinkColumn : Int := 1 + (mu.end_ : Int) + mu.lengthDiff
  if ¬ mu.start < 3 ∧ ¬ mu.end_ + 3 > stM.beta.cols then
    -- interior: ExtendAlpha length 2, then LinkAlphaBeta
    let extendStartCol := extendStartColOf mu
    match ops.extendAlpha stM.alpha extendStartCol 2 with
    | .error e => .error e
    | .ok buf =>
      match ops.linkAlphaBeta buf 2 stM.beta betaLinkCol absoluteLinkColumn with
      | .error e => .error e
      | .ok link => .ok (link + stM.alpha.GetLogProdScales 0 extendStartCol, buf)
  else if ¬ mu.start < 3 ∧ mu.end_ + 3 > stM.beta.cols then
    -- extend alpha to the end of the virtual template
    let extendStartCol := mu.start - 1
    let extendLength := stM.tpl.length - extendStartCol + 1
    match ops.extendAlpha stM.alpha extendStartCol extendLength with
    | .error e => .error e
    | .ok buf =>
      .ok (Real.log (buf.entry stM.readLength (extendLength - 1)) +
        stM.alpha.GetLogProdScales 0 extendStartCol +
        buf.GetLogProdScales 0 extendLength, buf)
  else if mu.start < 3 ∧ ¬ mu.end_ + 3 > stM.beta.cols then
    -- extend beta back to column 0
    let extendLastCol := mu.end_
    let extendLength := (1 + (mu.end_ : Int) + mu.lengthDiff).toNat
    match ops.extendBeta stM.beta extendLastCol mu.lengthDiff with
    | .error e => .error e
    | .ok buf =>
      .ok (Real.log (buf.entry 0 0) +
        stM.beta.GetLogProdScales (extendLastCol + 1) stM.beta.cols +
        buf.GetLogProdScales 0 extendLength, buf)
  else
    -- atBegin and atEnd: fall back to a full FillAlpha on the virtual template
    match ops.fillAlpha stM.tpl with
    | .error e => .error e
    | .ok alphaP =>
      .ok (Real.log (alphaP.entry stM.readLength stM.tpl.length) +
        alphaP.GetLogProdScalesAll, stM.extendBuffer)

/-- Function `EvaluatorImpl::LL(mut)`: apply the virtual mutation, score, reset the
virtual mutation, and add `UndoCounterWeights`.  The returned state is the
observable `EvaluatorImpl` state after the call; when a recursor callee
throws, the exception propagates before `Reset()` runs, so the state keeps
the mutated template. -/
noncomputable def LLmut (ops : RecursorOps) (st : EvaluatorState) (mu : Mutation) :
    Except CCError ℝ × EvaluatorState :=
  let stM := { st with tpl := st.tpl.mutate mu }
  match LLmutScore ops stM mu with
  | .error e => (.error e, stM)
  | .ok (score, buf) =>
    (.ok (score + undoCounterWeights st.readLength),
     { stM with tpl := stM.tpl.reset, extendBuffer := buf })

/-- The `EvaluatorImpl` constructor: fill α and β via `FillAlphaBeta`
(whose result pair is the `fill` argument: the recursion itself lives in
the Recursor header, outside `src/`), then throw `AlphaBetaMismatch` when
`LL()` of the filled state is not finite.  `isFinite` models
`std::isfinite` on doubles, which exact reals cannot express. -/
noncomputable def evaluatorNew (isFinite : ℝ → Bool) (fill : ScaledMatrix × ScaledMatrix)
    (st0 : EvaluatorState) : Except CCError EvaluatorState :=
  let st := { st0 with alpha := fill.1, beta := fill.2 }
  if isFinite (LL st) then .ok st else .error .alphaBetaMismatch

/-- IEEE-754 double values as observed through `ZScore`: a finite real or
one of the special values. -/
inductive FPVal where
  | fin (x : ℝ)
  | posInf
  | negInf
  | nan

def FPVal.isFinite : FPVal → Bool
  | .fin _ => true
  | _ => false

/-- Model of `std::sqrt` on doubles: NaN for a negative argument. -/
noncomputable def fpSqrt (x : ℝ) : FPVal :=
  if x < 0 then .nan else .fin (Real.sqrt x)

/-- IEEE division of a finite double by a double: division by zero gives
`±∞` (or NaN for `0/0`); division by NaN gives NaN; division by `±∞`
gives 0. -/
noncomputable def fpDiv (x : ℝ) : FPVal → FPVal
  | .fin y =>
    if y = 0 then (if 0 < x then .posInf else if x < 0 then .negInf else .nan)
    else .fin (x / y)
  | .nan => .nan
  | .posInf => .fin 0
  | .negInf => .fin 0

/-- Function `EvaluatorImpl::ZScore()`: `(LL() - mean) / sqrt(var)` with no guard
on the variance; the subtraction happens between finite doubles and is
kept in `ℝ`, the square root and the division carry IEEE special
values. -/
noncomputable def zScore (st : EvaluatorState) : FPVal :=
  fpDiv (LL st - (normalParameters st).1) (fpSqrt (normalParameters st).2)

/-! Concrete fixtures used by witness theorems. -/

/-- An all-zero matrix fixture. -/
def zeroMatrix : ScaledMatrix := ⟨0, 0, fun _ _ => 0, fun _ => 0⟩

/-- A matrix fixture with 9 columns (as the β of a length-8 template). -/
def beta9 : ScaledMatrix := ⟨3, 9, fun _ _ => 0, fun _ => 0⟩

/-- A matrix fixture with 3 columns (as the β of a length-2 template). -/
def beta3 : ScaledMatrix := ⟨3, 3, fun _ _ => 0, fun _ => 0⟩

/-- A baseline evaluator state fixture (length-8 template, no overlay). -/
def baseState : EvaluatorState := ⟨2, zeroMatrix, beta9, zeroMatrix, ⟨8, none⟩, 0, 0⟩

/-- An evaluator state fixture on a length-2 template. -/
def smallState : EvaluatorState := ⟨2, zeroMatrix, beta3, zeroMatrix, ⟨2, none⟩, 0, 0⟩

/-- Recursor-op fixture whose primitives all succeed. -/
def okOps : RecursorOps :=
  ⟨fun _ _ _ => .ok zeroMatrix, fun _ _ _ _ _ => .ok 0,
   fun _ _ _ => .ok zeroMatrix, fun _ => .ok zeroMatrix⟩

/-- Recursor-op fixture whose primitives all throw (an allocation
failure). -/
def throwOps : RecursorOps :=
  ⟨fun _ _ _ => .error .badAlloc, fun _ _ _ _ _ => .error .badAlloc,
   fun _ _ _ => .error .badAlloc, fun _ => .error .badAlloc⟩

/-- An interior substitution: start = 4, end = 5 (strictly inside the
band for a length-8 template). -/
def interiorMut : Mutation := ⟨.substitution, 4, 5, some 'C'⟩

/-- A mutation at the very start of a length-2 template: start = 0,
end = 1, hitting the atBegin-and-atEnd fallback branch. -/
def smallMut : Mutation := ⟨.substitution, 0, 1, some 'A'⟩

/-! Theorems. -/

/-- C2: for every evaluator state with read length `N`, `LL()` returns
`log β(0,0) + β.GetLogProdScales() + UndoCounterWeights(N)` where
`UndoCounterWeights(N) = -N * log 20` (the counter weight being 20.0). -/
theorem LL_formula (st : EvaluatorState) :
    LL st = Real.log (st.beta.entry 0 0) + st.beta.GetLogProdScales 0 st.beta.cols +
      (-(st.readLength : ℝ) * Real.log 20) := by
  simp only [LL, ScaledMatrix.GetLogProdScalesAll, undoCounterWeights, kCounterWeight]
  norm_num
  ring

/-- Helper: each exponentiated logit is positive. -/
theorem transLogitExp_pos (ctx k : Nat) (s : ℝ) : 0 < transLogitExp ctx k s :=
  Real.exp_pos _

/-- Helper: the normalizing sum is at least one (hence positive). -/
theorem one_le_ctxTransSum (snr : Nat → ℝ) (ctx : Nat) : 1 ≤ ctxTransSum snr ctx := by
  have p0 := transLogitExp_pos ctx 0 (clampedSnr snr ctx)
  have p1 := transLogitExp_pos ctx 1 (clampedSnr snr ctx)
  have p2 := transLogitExp_pos ctx 2 (clampedSnr snr ctx)
  unfold ctxTransSum
  norm_num
  linarith

/-- C6: for every SNR vector and context, the cached transition
probabilities `[match, branch, stick, deletion]` sum to 1 exactly, the
match probability is in `(0, 1]`, and the other three are nonnegative. -/
theorem ctxTrans_normalized (snr : Nat → ℝ) (ctx : Nat) :
    ctxTrans snr ctx 0 + ctxTrans snr ctx 1 + ctxTrans snr ctx 2 + ctxTrans snr ctx 3 = 1 ∧
    0 < ctxTrans snr ctx 0 ∧ ctxTrans snr ctx 0 ≤ 1 ∧
    0 ≤ ctxTrans snr ctx 1 ∧ 0 ≤ ctxTrans snr ctx 2 ∧ 0 ≤ ctxTrans snr ctx 3 := by
  have hS1 := one_le_ctxTransSum snr ctx
  have hSpos : 0 < ctxTransSum snr ctx := lt_of_lt_of_le one_pos hS1
  have p0 := transLogitExp_pos ctx 0 (clampedSnr snr ctx)
  have p1 := transLogitExp_pos ctx 1 (clampedSnr snr ctx)
  have p2 := transLogitExp_pos ctx 2 (clampedSnr snr ctx)
  have e0 : ctxTrans snr ctx 0 = 1.0 / ctxTransSum snr ctx := by simp [ctxTrans]
  have e1 : ctxTrans snr ctx 1 =
      transLogitExp ctx 0 (clampedSnr snr ctx) / ctxTransSum snr ctx := by simp [ctxTrans]
  have e2 : ctxTrans snr ctx 2 =
      transLogitExp ctx 1 (clampedSnr snr ctx) / ctxTransSum snr ctx := by simp [ctxTrans]
  have e3 : ctxTrans snr ctx 3 =
      transLogitExp ctx 2 (clampedSnr snr ctx) / ctxTransSum snr ctx := by simp [ctxTrans]
  refine ⟨?_, ?_, ?_, ?_, ?_, ?_⟩
  · rw [e0, e1, e2, e3, div_add_div_same, div_add_div_same, div_add_div_same]
    exact div_self (ne_of_gt hSpos)
  · rw [e0]; positivity
  · rw [e0]
    have : (1.0 : ℝ) = 1 := by norm_num
    rw [this, div_le_one hSpos]
    exact hS1
  · rw [e1]; exact div_nonneg (le_of_lt p0) (le_of_lt hSpos)
  · rw [e2]; exact div_nonneg (le_of_lt p1) (le_of_lt hSpos)
  · rw [e3]; exact div_nonneg (le_of_lt p2) (le_of_lt hSpos)

/-- Helper: an outcome `(a << 2) | b` with `a ≤ 2` and `b ≤ 3` is at
most 11. -/
theorem outcome_le_eleven (a b : Nat) (ha : a ≤ 2) (hb : b ≤ 3) :
    (a <<< 2) ||| b ≤ 11 := by
  interval_cases a <;> interval_cases b <;> decide

/-- C9: `EncodeRead` never takes the `ReadEncodingError` branch, and
every element of a successfully encoded read lies in `[0, 11]`. -/
theorem encodeRead_outcomes_bounded (read : List (Char × Nat)) :
    encodeRead read ≠ .error .readEncodingError ∧
    ∀ l, encodeRead read = .ok l → ∀ x ∈ l, x ≤ 11 := by
  induction read with
  | nil =>
    constructor
    · intro h; simp [encodeRead] at h
    · intro l hl x hx
      simp only [encodeRead] at hl
      cases hl
      simp at hx
  | cons p rest ih =>
    obtain ⟨ch, pwIn⟩ := p
    by_cases h1 : pwIn < 1
    · constructor
      · intro h; simp [encodeRead, h1] at h
      · intro l hl; simp [encodeRead, h1] at hl
    · by_cases h2 : translationTable ch > 3
      · constructor
        · intro h; simp [encodeRead, h1, h2] at h
        · intro l hl; simp [encodeRead, h1, h2] at hl
      · have hem : ((min 2 (pwIn - 1)) <<< 2) ||| translationTable ch ≤ 11 :=
          outcome_le_eleven _ _ (min_le_left _ _) (by omega)
        have h3 : ¬ ((min 2 (pwIn - 1)) <<< 2) ||| translationTable ch > 11 := by omega
        constructor
        · intro h
          simp only [encodeRead, if_neg h1, if_neg h2, if_neg h3] at h
          cases hrec : encodeRead rest with
          | error e =>
            rw [hrec] at h
            cases h
            exact ih.1 hrec
          | ok r => rw [hrec] at h; cases h
        · intro l hl x hx
          simp only [encodeRead, if_neg h1, if_neg h2, if_neg h3] at hl
          cases hrec : encodeRead rest with
          | error e => rw [hrec] at hl; cases hl
          | ok r =>
            rw [hrec] at hl
            cases hl
            rcases List.mem_cons.mp hx with hx1 | hx2
            · subst hx1; exact hem
            · exact ih.2 r hrec x hx2

/-- Witness for C9 at the read `[('A', 1)]`, which encodes to `[0]`. -/
theorem encodeRead_outcomes_bounded_witness : (0 : Nat) ≤ 11 :=
  (encodeRead_outcomes_bounded [('A', 1)]).2 [0] rfl 0 (by simp)

/-- C10: `ZScore()` divides by `sqrt(variance)` with no guard, so a zero
(or negative) variance yields a non-finite double (`±∞` or NaN). -/
theorem zScore_nonfinite_of_nonpos_var (st : EvaluatorState) (h : st.normalVar ≤ 0) :
    (zScore st).isFinite = false := by
  rcases lt_or_eq_of_le h with hlt | heq
  · simp [zScore, normalParameters, fpSqrt, hlt, fpDiv, FPVal.isFinite]
  · have hsq : fpSqrt st.normalVar = .fin 0 := by
      rw [heq]; simp [fpSqrt]
    simp only [zScore, normalParameters, hsq, fpDiv, if_true]
    split_ifs <;> rfl

/-- Witness for C10 on a state whose variance is zero. -/
theorem zScore_nonfinite_witness : (zScore baseState).isFinite = false :=
  zScore_nonfinite_of_nonpos_var baseState (le_refl 0)

/-- C3: in the interior case (`¬atBegin ∧ ¬atEnd`, i.e. `mut.start ≥ 3`
and `mut.end + 3 ≤ β.cols`), `LL(mut)` extends α from `start - 1` for a
deletion and `start` otherwise with extend length 2, links to β at column
`1 + end` with absolute column `1 + end + lengthDiff`, and returns the
link value plus `α.GetLogProdScales(0, extendStartCol)` plus the
counter-weight correction; the template ends up mutated-then-reset and the
extend buffer holds the extension. -/
theorem LLmut_interior_case (ops : RecursorOps) (st : EvaluatorState) (mu : Mutation)
    (buf : ScaledMatrix) (link : ℝ)
    (hb : ¬ mu.start < 3) (he : ¬ mu.end_ + 3 > st.beta.cols)
    (hE : ops.extendAlpha st.alpha (extendStartColOf mu) 2 = .ok buf)
    (hL : ops.linkAlphaBeta buf 2 st.beta (1 + mu.end_)
      (1 + (mu.end_ : Int) + mu.lengthDiff) = .ok link) :
    LLmut ops st mu =
      (.ok (link + st.alpha.GetLogProdScales 0 (extendStartColOf mu) +
        undoCounterWeights st.readLength),
       { st with tpl := (st.tpl.mutate mu).reset, extendBuffer := buf }) := by
  simp only [LLmut, LLmutScore, Tpl.mutate, if_pos (And.intro hb he), hE, hL]

/-- Witness for C3: an interior substitution on a length-8 template with
trivially succeeding recursor primitives. -/
theorem LLmut_interior_case_witness :
    LLmut okOps baseState interiorMut =
      (.ok (0 + baseState.alpha.GetLogProdScales 0 (extendStartColOf interiorMut) +
        undoCounterWeights baseState.readLength),
       { baseState with tpl := (baseState.tpl.mutate interiorMut).reset, extendBuffer := zeroMatrix }) :=
  LLmut_interior_case okOps baseState interiorMut zeroMatrix 0
    (by decide) (by decide) rfl rfl

/-- C4 (evaluating the failure): when a callee of `LL(mut)` throws - here
the `atBegin ∧ atEnd` fallback branch, whose fresh-matrix allocation and
`FillAlpha` can raise `std::bad_alloc` - the exception propagates before
`Reset()` runs, so the observable state keeps the virtual mutation
applied: the claim's "Reset() on every exit path including exceptional
ones" fails on the code. -/
theorem LLmut_exception_keeps_mutation :
    LLmut throwOps smallState smallMut =
      (.error .badAlloc, { smallState with tpl := smallState.tpl.mutate smallMut }) ∧
    ({ smallState with tpl := smallState.tpl.mutate smallMut }).tpl.overlay = some smallMut ∧
    smallState.tpl.overlay = none := by
  refine ⟨?_, rfl, rfl⟩
  simp only [LLmut, LLmutScore]
  norm_num [smallMut, smallState, beta3, Tpl.mutate, throwOps]

/-- C5: the constructor fills α and β via `FillAlphaBeta` and throws
`AlphaBetaMismatch` exactly when the post-fill `LL()` is not finite; on
success it returns the eagerly filled state. -/
theorem evaluatorNew_mismatch_iff (isFin : ℝ → Bool) (fill : ScaledMatrix × ScaledMatrix)
    (st0 : EvaluatorState) :
    (evaluatorNew isFin fill st0 = .error .alphaBetaMismatch ↔
      isFin (LL { st0 with alpha := fill.1, beta := fill.2 }) = false) ∧
    (∀ st', evaluatorNew isFin fill st0 = .ok st' →
      st' = { st0 with alpha := fill.1, beta := fill.2 }) := by
  unfold evaluatorNew
  cases hf : isFin (LL { st0 with alpha := fill.1, beta := fill.2 }) with
  | true =>
    constructor
    · simp [hf]
    · intro st' hst'
      simp only [hf, if_true] at hst'
      exact (Except.ok.inj hst').symm
  | false =>
    constructor
    · simp [hf]
    · intro st' hst'
      simp only [hf, if_false] at hst'
      cases hst'

/-- Witness for C5: with a finiteness test that always fails, the
constructor throws `AlphaBetaMismatch`. -/
theorem evaluatorNew_mismatch_witness :
    evaluatorNew (fun _ => false) (zeroMatrix, beta9) baseState = .error .alphaBetaMismatch :=
  (evaluatorNew_mismatch_iff (fun _ => false) (zeroMatrix, beta9) baseState).1.mpr rfl

/-- Helper for C7: full characterization of the `Populate` loop
(`populateGo`) on a valid template suffix. -/
theorem populateGo_spec (params : Nat → Nat → ℝ) :
    ∀ (rest : List Char) (c : Char), (∀ x ∈ c :: rest, translationTable x ≤ 3) →
      ∃ l, populateGo params c rest = .ok l ∧
        l.length = rest.length + 1 ∧
        (∀ i, i + 1 < rest.length + 1 →
          l.getD i dfltPos =
            ⟨(c :: rest).getD i ' ', translationTable ((c :: rest).getD i ' '),
             params (rowOf (c :: rest) i) 0, params (rowOf (c :: rest) i) 1,
             params (rowOf (c :: rest) i) 2, params (rowOf (c :: rest) i) 3⟩) ∧
        l.getD rest.length dfltPos =
          ⟨(c :: rest).getD rest.length ' ',
           translationTable ((c :: rest).getD rest.length ' '), 1.0, 0.0, 0.0, 0.0⟩ := by
  intro rest
  induction rest with
  | nil =>
    intro c hv
    refine ⟨[⟨c, translationTable c, 1.0, 0.0, 0.0, 0.0⟩], rfl, rfl, ?_, ?_⟩
    · intro i hi; rw [List.length_nil] at hi; omega
    · simp [List.getD]
  | cons d rest2 ih =>
    intro c hv
    have hd : translationTable d ≤ 3 := hv d (by simp)
    have hv2 : ∀ x ∈ d :: rest2, translationTable x ≤ 3 := by
      intro x hx; exact hv x (List.mem_cons_of_mem c hx)
    obtain ⟨l2, hl2, hlen2, hint2, hlast2⟩ := ih d hv2
    have hstep : populateGo params c (d :: rest2) =
        .ok (⟨c, translationTable c,
          params ((translationTable c <<< 2) ||| translationTable d) 0,
          params ((translationTable c <<< 2) ||| translationTable d) 1,
          params ((translationTable c <<< 2) ||| translationTable d) 2,
          params ((translationTable c <<< 2) ||| translationTable d) 3⟩ :: l2) := by
      simp only [populateGo]
      rw [if_neg (by omega), hl2]
    refine ⟨_, hstep, ?_, ?_, ?_⟩
    · simp [hlen2]
    · intro i hi
      cases i with
      | zero => simp [rowOf, List.getD_cons_zero, List.getD_cons_succ]
      | succ i2 =>
        rw [List.length_cons] at hi
        rw [List.getD_cons_succ, hint2 i2 (by omega)]
        simp [rowOf, List.getD_cons_succ]
    · rw [List.length_cons, List.getD_cons_succ, hlast2]
      simp [List.getD_cons_succ]

/-- C7: on a template string over {A,C,G,T}, `Populate` returns a
sequence of the same length whose position `i` (for `i + 1 < L`) carries
the transition probabilities of the context `(base[i], base[i+1])` and
whose final position carries `(match, branch, stick, deletion) =
(1, 0, 0, 0)`; the empty template yields the empty sequence. -/
theorem populate_spec (params : Nat → Nat → ℝ) (tpl : List Char)
    (hv : ∀ x ∈ tpl, translationTable x ≤ 3) :
    ∃ l, populate params tpl = .ok l ∧
      l.length = tpl.length ∧
      (∀ i, i + 1 < tpl.length →
        l.getD i dfltPos =
          ⟨tpl.getD i ' ', translationTable (tpl.getD i ' '),
           params (rowOf tpl i) 0, params (rowOf tpl i) 1,
           params (rowOf tpl i) 2, params (rowOf tpl i) 3⟩) ∧
      (tpl ≠ [] →
        l.getD (tpl.length - 1) dfltPos =
          ⟨tpl.getD (tpl.length - 1) ' ', translationTable (tpl.getD (tpl.length - 1) ' '),
           1.0, 0.0, 0.0, 0.0⟩) ∧
      (tpl = [] → l = []) := by
  cases tpl with
  | nil =>
    refine ⟨[], rfl, rfl, ?_, ?_, fun _ => rfl⟩
    · intro i hi; simp at hi
    · intro h; exact absurd rfl h
  | cons c rest =>
    have hc : ¬ translationTable c > 3 := by
      have := hv c (by simp)
      omega
    obtain ⟨l, hl, hlen, hint, hlast⟩ := populateGo_spec params rest c hv
    refine ⟨l, ?_, ?_, ?_, ?_, ?_⟩
    · simp only [populate]
      rw [if_neg hc]
      exact hl
    · simpa using hlen
    · intro i hi
      exact hint i (by simpa using hi)
    · intro _
      have hlen1 : (c :: rest).length - 1 = rest.length := by simp
      rw [hlen1]
      exact hlast
    · intro h
      exact absurd h (by simp)

/-- Witness for C7 on the template string "ACGT" (with the probability
table fixed to the zero function). -/
theorem populate_spec_witness :
    ∃ l, populate (fun _ _ => 0) ['A', 'C', 'G', 'T'] = .ok l ∧
      l.length = (['A', 'C', 'G', 'T'] : List Char).length ∧
      (∀ i, i + 1 < (['A', 'C', 'G', 'T'] : List Char).length →
        l.getD i dfltPos =
          ⟨(['A', 'C', 'G', 'T'] : List Char).getD i ' ',
           translationTable ((['A', 'C', 'G', 'T'] : List Char).getD i ' '),
           (fun _ _ => (0 : ℝ)) (rowOf ['A', 'C', 'G', 'T'] i) 0,
           (fun _ _ => (0 : ℝ)) (rowOf ['A', 'C', 'G', 'T'] i) 1,
           (fun _ _ => (0 : ℝ)) (rowOf ['A', 'C', 'G', 'T'] i) 2,
           (fun _ _ => (0 : ℝ)) (rowOf ['A', 'C', 'G', 'T'] i) 3⟩) ∧
      ((['A', 'C', 'G', 'T'] : List Char) ≠ [] →
        l.getD ((['A', 'C', 'G', 'T'] : List Char).length - 1) dfltPos =
          ⟨(['A', 'C', 'G', 'T'] : List Char).getD
             ((['A', 'C', 'G', 'T'] : List Char).length - 1) ' ',
           translationTable ((['A', 'C', 'G', 'T'] : List Char).getD
             ((['A', 'C', 'G', 'T'] : List Char).length - 1) ' '),
           1.0, 0.0, 0.0, 0.0⟩) ∧
      ((['A', 'C', 'G', 'T'] : List Char) = [] → l = []) :=
  populate_spec (fun _ _ => 0) ['A', 'C', 'G', 'T'] (by decide)

/-- C8 counterexample: the read `[('N', 1), ('A', 0)]` has a zero pulse
width (at position 1), yet `EncodeRead` raises `InvalidBase` (for the 'N'
at position 0), not `InvalidPulseWidth`: the per-position scan finds the
invalid base first. -/
theorem encodeRead_error_priority_counterexample :
    ¬ ((∃ p ∈ [('N', 1), ('A', 0)], p.2 = 0) →
      encodeRead [('N', 1), ('A', 0)] = .error .invalidPulseWidth) := by
  intro h
  have hx := h ⟨('A', 0), by simp, rfl⟩
  have hy : encodeRead [('N', 1), ('A', 0)] = .error .invalidBase := rfl
  rw [hy] at hx
  injection hx with hz
  exact absurd hz (by decide)

/-- C8 (amended): `EncodeRead` scans left to right, checking the pulse
width before the base at each position.  If some pulse width is zero and
all characters are valid it raises `InvalidPulseWidth`; if some character
is invalid and all pulse widths are nonzero it raises `InvalidBase`; if
every position passes both checks it returns a vector of the read's
length whose element `i` is `(min(pw-1,2) << 2) | base ≤ 11`. -/
theorem encodeRead_checks (read : List (Char × Nat)) :
    ((∀ p ∈ read, translationTable p.1 ≤ 3) → (∃ p ∈ read, p.2 = 0) →
      encodeRead read = .error .invalidPulseWidth) ∧
    ((∀ p ∈ read, 1 ≤ p.2) → (∃ p ∈ read, 3 < translationTable p.1) →
      encodeRead read = .error .invalidBase) ∧
    ((∀ p ∈ read, 1 ≤ p.2 ∧ translationTable p.1 ≤ 3) →
      ∃ l, encodeRead read = .ok l ∧ l.length = read.length ∧
        ∀ i, i < read.length →
          l.getD i 12 = outcomeOf (read.getD i dfltPair) ∧ l.getD i 12 ≤ 11) := by
  refine ⟨?_, ?_, ?_⟩
  · -- zero pulse width among valid bases
    induction read with
    | nil =>
      intro _ hex
      obtain ⟨p, hp, _⟩ := hex
      simp at hp
    | cons q rest ih =>
      intro hval hex
      obtain ⟨ch, pw⟩ := q
      by_cases h1 : pw < 1
      · simp [encodeRead, h1]
      · have hb : translationTable ch ≤ 3 := hval (ch, pw) (by simp)
        have h2 : ¬ translationTable ch > 3 := by omega
        have h3 : ¬ (min 2 (pw - 1) <<< 2) ||| translationTable ch > 11 := by
          have := outcome_le_eleven (min 2 (pw - 1)) (translationTable ch)
            (min_le_left _ _) hb
          omega
        have hrest : ∃ p ∈ rest, p.2 = 0 := by
          obtain ⟨p, hp, hp0⟩ := hex
          rcases List.mem_cons.mp hp with heq | hmem
          · subst heq; simp at hp0; omega
          · exact ⟨p, hmem, hp0⟩
        have hih := ih (fun p hp => hval p (List.mem_cons_of_mem _ hp)) hrest
        simp only [encodeRead, if_neg h1, if_neg h2, if_neg h3]
        rw [hih]
  · -- invalid base among nonzero pulse widths
    induction read with
    | nil =>
      intro _ hex
      obtain ⟨p, hp, _⟩ := hex
      simp at hp
    | cons q rest ih =>
      intro hpw hex
      obtain ⟨ch, pw⟩ := q
      have hpw1 : 1 ≤ pw := hpw (ch, pw) (by simp)
      have h1 : ¬ pw < 1 := by omega
      by_cases h2 : translationTable ch > 3
      · simp [encodeRead, h1, h2]
      · have h3 : ¬ (min 2 (pw - 1) <<< 2) ||| translationTable ch > 11 := by
          have := outcome_le_eleven (min 2 (pw - 1)) (translationTable ch)
            (min_le_left _ _) (by omega)
          omega
        have hrest : ∃ p ∈ rest, 3 < translationTable p.1 := by
          obtain ⟨p, hp, hp3⟩ := hex
          rcases List.mem_cons.mp hp with heq | hmem
          · subst heq; simp at hp3; omega
          · exact ⟨p, hmem, hp3⟩
        have hih := ih (fun p hp => hpw p (List.mem_cons_of_mem _ hp)) hrest
        simp only [encodeRead, if_neg h1, if_neg h2, if_neg h3]
        rw [hih]
  · -- all checks pass
    induction read with
    | nil =>
      intro _
      refine ⟨[], rfl, rfl, ?_⟩
      intro i hi
      rw [List.length_nil] at hi
      omega
    | cons q rest ih =>
      intro hval
      obtain ⟨ch, pw⟩ := q
      obtain ⟨hpw1, hb⟩ := hval (ch, pw) (by simp)
      have hpw1' : 1 ≤ pw := hpw1
      have hb' : translationTable ch ≤ 3 := hb
      have h1 : ¬ pw < 1 := by omega
      have h2 : ¬ translationTable ch > 3 := by omega
      have hem : (min 2 (pw - 1) <<< 2) ||| translationTable ch ≤ 11 :=
        outcome_le_eleven (min 2 (pw - 1)) (translationTable ch) (min_le_left _ _) hb'
      have h3 : ¬ (min 2 (pw - 1) <<< 2) ||| translationTable ch > 11 := by omega
      obtain ⟨l, hl, hlen, helts⟩ := ih (fun p hp => hval p (List.mem_cons_of_mem _ hp))
      refine ⟨((min 2 (pw - 1) <<< 2) ||| translationTable ch) :: l, ?_, ?_, ?_⟩
      · simp only [encodeRead, if_neg h1, if_neg h2, if_neg h3]
        rw [hl]
      · simp [hlen]
      · intro i hi
        cases i with
        | zero =>
          constructor
          · simp [outcomeOf, List.getD_cons_zero]
          · simpa using hem
        | succ j =>
          rw [List.length_cons] at hi
          rw [List.getD_cons_succ, List.getD_cons_succ]
          exact helts j (by omega)

/-- Witness for C8 (amended), first arm: a read whose characters are all
valid but whose pulse width is zero raises `InvalidPulseWidth`. -/
theorem encodeRead_checks_witness :
    encodeRead [('A', 0)] = .error .invalidPulseWidth :=
  (encodeRead_checks [('A', 0)]).1 (by decide) (by decide)
